import Mathlib

/-!
A shallow embedding of `train.py` from the MNIST_Classification_Pytorch
repository, together with proofs of the specification's claims about it.

Modelling conventions:
* Model parameters (and any train-mode-mutable model state) are an abstract
  type `Θ`; the in-place mutation performed by `optimizer.zero_grad()`,
  `loss.backward()`, `optimizer.step()` on one batch is a single abstract
  update function `optStep : Θ → Batch → Θ` (state-passing translation of
  the in-place side effect).
* A batch is a list of inputs plus a list of integer labels; a dataloader is
  the list of batches it yields, in yield order.  `image.to(DEVICE)` /
  `label.to(DEVICE)` and `image.float()` are data transports, identities in
  the embedding.
* Per-sample class scores, losses and accuracies are rationals.  `torch.exp`
  inside `torch.softmax` is an abstract function `expQ : ℚ → ℚ` carried by
  the environment.
* Python's float division raises `ZeroDivisionError` on a zero denominator:
  the end-of-epoch averaging over `len(dataloader)` is therefore modelled
  with `Option`, `none` on an empty dataloader.
* `torch.save(model.state_dict(), fname)` is modelled as appending
  `(fname, params)` to a list of written files; `tqdm` progress display is
  ignored (observability only, per the spec).
-/

/-- Model mode, set by `model.train()` / `model.eval()`. -/
inductive Mode where
  | train : Mode
  | eval : Mode
deriving DecidableEq

/-- One batch yielded by a dataloader: an input tensor (list of per-sample
inputs) and an integer label per sample. -/
structure Batch (Input : Type) where
  images : List Input
  labels : List Nat
deriving DecidableEq

/-- The numeric-framework environment a run is abstract over: the model's
forward pass (mode-dependent, on the current parameters, mapping a batch of
inputs to one score vector per sample), the scalar loss function, the
combined `zero_grad`/`backward`/`step` parameter update, and the `exp`
used inside `torch.softmax`. -/
structure TrainEnv (Θ Input : Type) where
  forward : Mode → Θ → List Input → List (List ℚ)
  lossFn : List (List ℚ) → List Nat → ℚ
  optStep : Θ → Batch Input → Θ
  expQ : ℚ → ℚ

/-- Index of the first maximal element of a score vector (auxiliary loop):
`torch.argmax` over one row. -/
def argmaxAux : List ℚ → Nat → Nat → ℚ → Nat
  | [], _, bi, _ => bi
  | x :: xs, i, bi, bv => if bv < x then argmaxAux xs (i+1) i x else argmaxAux xs (i+1) bi bv

/-- `torch.argmax` on one score vector: index of the first maximal entry
(0 on an empty vector). -/
def argmaxList : List ℚ → Nat
  | [] => 0
  | x :: xs => argmaxAux xs 1 0 x

/-- `torch.softmax(·, dim=1)` on one row of scores, with the framework's
`exp` abstracted as `e`. -/
def softmaxRow (e : ℚ → ℚ) (s : List ℚ) : List ℚ :=
  let t := (s.map e).sum
  s.map (fun x => e x / t)

/-- `(pred_class == label).sum().item()`: how many positions of the two
equal-length vectors agree. -/
def correctCount (preds labels : List Nat) : Nat :=
  ((preds.zip labels).filter (fun p => p.1 = p.2)).length

section Steps

variable {Θ Input : Type}

/-- The body of `train_step`'s batch loop (lines 31–42 of `train.py`),
threading the parameter state and the two accumulators `train_loss`,
`train_acc`.  Per batch: forward pass on the current parameters, scalar
loss, accumulate loss, parameter update (`zero_grad`; `backward`; `step`),
predicted class = arg-max of the softmax of the scores computed before the
update, accumulate the fraction of the batch predicted correctly
(`(pred_class == label).sum().item() / len(pred_label)`). -/
def trainLoop (env : TrainEnv Θ Input) : Θ → ℚ → ℚ → List (Batch Input) → Θ × ℚ × ℚ
  | θ, l, a, [] => (θ, l, a)
  | θ, l, a, b :: bs =>
    let scores := env.forward Mode.train θ b.images
    let loss := env.lossFn scores b.labels
    let preds := scores.map (fun s => argmaxList (softmaxRow env.expQ s))
    let acc := (correctCount preds b.labels : ℚ) / (scores.length : ℚ)
    trainLoop env (env.optStep θ b) (l + loss) (a + acc) bs

/-- `train_step` (lines 15–50): one pass over the dataloader in yield order,
then the averages `train_loss / len(dataloader)`, `train_acc /
len(dataloader)`.  The division raises `ZeroDivisionError` on an empty
dataloader, hence `none` there; the updated parameters (mutated in place in
the source) are returned alongside the two averages. -/
def train_step (env : TrainEnv Θ Input) (θ : Θ) (dataloader : List (Batch Input))
    (_curr_epoch : Nat) : Option (Θ × ℚ × ℚ) :=
  let r := trainLoop env θ 0 0 dataloader
  if dataloader.length = 0 then none
  else some (r.1, r.2.1 / (dataloader.length : ℚ), r.2.2 / (dataloader.length : ℚ))

/-- The body of `test_step`'s batch loop (lines 69–77), under
`model.eval()` and `torch.inference_mode()`: no parameter state is
threaded because the loop mutates none.  Predicted class is
`pred_label.argmax(dim=1)` on the raw scores; accuracy divides by
`len(pred_class)`. -/
def testLoop (env : TrainEnv Θ Input) (θ : Θ) : ℚ → ℚ → List (Batch Input) → ℚ × ℚ
  | l, a, [] => (l, a)
  | l, a, b :: bs =>
    let scores := env.forward Mode.eval θ b.images
    let loss := env.lossFn scores b.labels
    let preds := scores.map argmaxList
    let acc := (correctCount preds b.labels : ℚ) / (preds.length : ℚ)
    testLoop env θ (l + loss) (a + acc) bs

/-- `test_step` (lines 53–85): one gradient-free pass over the dataloader,
then the averages over `len(dataloader)` (`ZeroDivisionError`, i.e. `none`,
on an empty dataloader).  The parameters are returned unchanged: the source
loop mutates no model or optimizer state. -/
def test_step (env : TrainEnv Θ Input) (θ : Θ) (dataloader : List (Batch Input))
    (_curr_epoch : Nat) : Option (Θ × ℚ × ℚ) :=
  let r := testLoop env θ 0 0 dataloader
  if dataloader.length = 0 then none
  else some (θ, r.1 / (dataloader.length : ℚ), r.2 / (dataloader.length : ℚ))

end Steps

/-- The `setting` configuration module's values used by the loop. -/
structure Setting where
  NUM_EPOCHS : Nat
  PTH_SAVE_DIR : String
  CONTINUE_TRAIN : Bool
deriving DecidableEq

/-- Render a natural number padded on the left with zeros to 4 digits. -/
def padZero4 (n : Nat) : String :=
  let s := Nat.repr n
  String.mk (List.replicate (4 - s.length) '0') ++ s

/-- Python's `f'{x:.4f}'` fixed-point formatting on a rational: round
`x * 10000` to the nearest integer and print with 4 digits after the
decimal point.  (Python rounds the binary float's decimal expansion,
half-to-even; the claims never depend on tie behaviour.) -/
def fmtFixed4 (q : ℚ) : String :=
  let n : Int := round (q * 10000)
  let sign := if n < 0 then "-" else ""
  let m := n.natAbs
  sign ++ Nat.repr (m / 10000) ++ "." ++ padZero4 (m % 10000)

/-- The checkpoint path of line 116:
`f'{setting.PTH_SAVE_DIR}/checkpoint_{test_acc*100:.4f}%.pth'`. -/
def checkpointFileName (dir : String) (test_acc : ℚ) : String :=
  dir ++ "/checkpoint_" ++ fmtFixed4 (test_acc * 100) ++ "%.pth"

/-- The global `BEST_ACC = 0` of line 12 of `train.py`. -/
def BEST_ACC : ℚ := 0

/-- The results dictionary of `train` (line 102): one list of per-epoch
values per metric name. -/
structure Results where
  train_loss : List ℚ
  train_acc : List ℚ
  test_loss : List ℚ
  test_acc : List ℚ
deriving DecidableEq

/-- `results = {"train_loss": [], "train_acc": [], "test_loss": [], "test_acc": []}`. -/
def emptyResults : Results := ⟨[], [], [], []⟩

/-- Lines 119–122: append this epoch's four metric values. -/
def appendEpoch (r : Results) (trl tra tel tea : ℚ) : Results :=
  ⟨r.train_loss ++ [trl], r.train_acc ++ [tra], r.test_loss ++ [tel], r.test_acc ++ [tea]⟩

/-- The mutable state the epoch loop acts on: the model's parameters, the
process-global `BEST_ACC` watermark, the results dictionary, and the files
written so far by `torch.save` (name and saved parameters, in write
order). -/
structure TrainState (Θ : Type) where
  model : Θ
  best_acc : ℚ
  results : Results
  saved : List (String × Θ)
deriving DecidableEq

section Driver

variable {Θ Input : Type}

/-- The state update of lines 113–122, given this epoch's step results:
if `test_acc > BEST_ACC` then update the watermark and save a checkpoint
named after `test_acc`; then append the four metric values. -/
def epochUpdate (cfg : Setting) (s : TrainState Θ) (θ2 : Θ) (trl tra tel tea : ℚ) :
    TrainState Θ :=
  if s.best_acc < tea then
    { model := θ2, best_acc := tea,
      results := appendEpoch s.results trl tra tel tea,
      saved := s.saved ++ [(checkpointFileName cfg.PTH_SAVE_DIR tea, θ2)] }
  else
    { model := θ2, best_acc := s.best_acc,
      results := appendEpoch s.results trl tra tel tea,
      saved := s.saved }

/-- One iteration of the epoch loop (lines 107–122): run `train_step` then
`test_step` on the post-training parameters, then the checkpoint/metrics
update.  `none` propagates a `ZeroDivisionError` from either step. -/
def runEpoch (env : TrainEnv Θ Input) (cfg : Setting)
    (tdl vdl : List (Batch Input)) (epoch : Nat) (s : TrainState Θ) :
    Option (TrainState Θ) :=
  match train_step env s.model tdl epoch with
  | none => none
  | some (θ1, trl, tra) =>
    match test_step env θ1 vdl epoch with
    | none => none
    | some (θ2, tel, tea) => some (epochUpdate cfg s θ2 trl tra tel tea)

/-- `for epoch in range(1, NUM_EPOCHS+1)` as a fuelled recursion: run `n`
further epochs starting at epoch number `e`. -/
def trainAux (env : TrainEnv Θ Input) (cfg : Setting)
    (tdl vdl : List (Batch Input)) : Nat → Nat → TrainState Θ → Option (TrainState Θ)
  | 0, _, s => some s
  | Nat.succ n, e, s =>
    match runEpoch env cfg tdl vdl e s with
    | none => none
    | some s1 => trainAux env cfg tdl vdl n (e + 1) s1

/-- `train` (lines 88–125): run `NUM_EPOCHS` epochs from the given model
parameters, the current process-global watermark and the files already on
disk, with a fresh empty results dictionary, and return the final state
(whose `results` field is the returned dictionary). -/
def train (env : TrainEnv Θ Input) (cfg : Setting) (tdl vdl : List (Batch Input))
    (θ0 : Θ) (best0 : ℚ) (files0 : List (String × Θ)) : Option (TrainState Θ) :=
  trainAux env cfg tdl vdl cfg.NUM_EPOCHS 1 ⟨θ0, best0, emptyResults, files0⟩

/-- The state the `__main__` block (lines 128–146) starts `train` from:
the model parameters are the freshly constructed ones, or, when
`CONTINUE_TRAIN` is set, the ones loaded from the checkpoint file — but the
watermark is the module-level `BEST_ACC` in both cases: loading a
checkpoint restores no watermark. -/
def mainInit (cfg : Setting) (θfresh θloaded : Θ) : TrainState Θ :=
  ⟨if cfg.CONTINUE_TRAIN then θloaded else θfresh, BEST_ACC, emptyResults, []⟩

end Driver

section SpecSide

variable {Θ Input : Type}

/-- The parameter values the train-step loop holds before each batch, in
batch order: each batch's forward pass sees the parameters produced by the
updates of all earlier batches. -/
def paramTraj (env : TrainEnv Θ Input) : Θ → List (Batch Input) → List Θ
  | _, [] => []
  | θ, b :: bs => θ :: paramTraj env (env.optStep θ b) bs

/-- The parameters after the train-step loop has applied one optimizer
update per batch, in order. -/
def finalParam (env : TrainEnv Θ Input) : Θ → List (Batch Input) → Θ
  | θ, [] => θ
  | θ, b :: bs => finalParam env (env.optStep θ b) bs

/-- Spec wording, train step: the scalar loss of one batch — loss function
applied to the train-mode forward pass's scores and the labels. -/
def trainBatchLoss (env : TrainEnv Θ Input) (θ : Θ) (b : Batch Input) : ℚ :=
  env.lossFn (env.forward Mode.train θ b.images) b.labels

/-- Spec wording, train step: the fraction of one batch predicted
correctly, the predicted class being the arg-max over a softmax of the
output scores. -/
def trainBatchAcc (env : TrainEnv Θ Input) (θ : Θ) (b : Batch Input) : ℚ :=
  let scores := env.forward Mode.train θ b.images
  (correctCount (scores.map (fun s => argmaxList (softmaxRow env.expQ s))) b.labels : ℚ) /
    (scores.length : ℚ)

/-- Spec wording, evaluate step: the scalar loss of one batch on the
eval-mode forward pass. -/
def evalBatchLoss (env : TrainEnv Θ Input) (θ : Θ) (b : Batch Input) : ℚ :=
  env.lossFn (env.forward Mode.eval θ b.images) b.labels

/-- Spec wording, evaluate step: the fraction of one batch predicted
correctly, the predicted class being the arg-max of the raw scores (no
softmax). -/
def evalBatchAcc (env : TrainEnv Θ Input) (θ : Θ) (b : Batch Input) : ℚ :=
  let preds := (env.forward Mode.eval θ b.images).map argmaxList
  (correctCount preds b.labels : ℚ) / (preds.length : ℚ)

/-- The train step as the spec describes it: one pass over all batches in
source-provided order, each batch handled with the parameters current at
that point (one optimizer update per batch); the result is the mean
per-batch loss and the mean per-batch accuracy, together with the final
parameters; undefined (division error) on an empty batch source. -/
def train_step_spec (env : TrainEnv Θ Input) (θ : Θ) (dl : List (Batch Input))
    (_curr_epoch : Nat) : Option (Θ × ℚ × ℚ) :=
  if dl.isEmpty then none
  else
    some (finalParam env θ dl,
      (((paramTraj env θ dl).zip dl).map (fun p => trainBatchLoss env p.1 p.2)).sum /
        (dl.length : ℚ),
      (((paramTraj env θ dl).zip dl).map (fun p => trainBatchAcc env p.1 p.2)).sum /
        (dl.length : ℚ))

/-- The evaluate step as the spec describes it: same batch-iteration
contract as the train step but with no parameter mutation (every batch sees
the same parameters, which are returned unchanged), eval mode, and
arg-max of raw scores; mean loss and mean per-batch accuracy over the
batches. -/
def test_step_spec (env : TrainEnv Θ Input) (θ : Θ) (dl : List (Batch Input))
    (_curr_epoch : Nat) : Option (Θ × ℚ × ℚ) :=
  if dl.isEmpty then none
  else
    some (θ,
      (dl.map (fun b => evalBatchLoss env θ b)).sum / (dl.length : ℚ),
      (dl.map (fun b => evalBatchAcc env θ b)).sum / (dl.length : ℚ))

end SpecSide

/-! Concrete instances used to exhibit runs of the embedded program. -/

/-- A trivial environment whose model always scores class 0 highest. -/
def env1 : TrainEnv Unit Unit :=
  ⟨fun _ _ imgs => imgs.map (fun _ => [(1 : ℚ), 0]),
   fun _ _ => 0, fun θ _ => θ, fun x => x + 2⟩

/-- A trivial environment whose model always scores class 1 highest. -/
def env0 : TrainEnv Unit Unit :=
  ⟨fun _ _ imgs => imgs.map (fun _ => [(0 : ℚ), 1]),
   fun _ _ => 0, fun θ _ => θ, fun x => x + 2⟩

/-- One batch of one sample labelled with class 0. -/
def batch1 : Batch Unit := ⟨[()], [0]⟩

/-- A dataloader yielding the single batch `batch1`. -/
def dl1 : List (Batch Unit) := [batch1]

/-- One-epoch configuration. -/
def cfg1 : Setting := ⟨1, "save", false⟩

/-- One-epoch configuration with `CONTINUE_TRAIN` set. -/
def cfgC : Setting := ⟨1, "save", true⟩

/-- The state of a fresh one-epoch run of `env1` on `dl1`: test accuracy 1,
one checkpoint written. -/
def w1State : TrainState Unit :=
  ⟨(), 1, ⟨[0], [1], [0], [1]⟩, [("save/checkpoint_100.0000%.pth", ())]⟩

/-- The fresh initial state of a run: fresh parameters, the module-level
watermark, empty results, nothing on disk. -/
def s0 : TrainState Unit := ⟨(), BEST_ACC, emptyResults, []⟩

/-! Characterisation of the batch loops. -/

section LoopLemmas

variable {Θ Input : Type}

theorem paramTraj_length (env : TrainEnv Θ Input) :
    ∀ (dl : List (Batch Input)) (θ : Θ), (paramTraj env θ dl).length = dl.length
  | [], _ => rfl
  | b :: bs, θ => by
    simp [paramTraj, paramTraj_length env bs]

theorem trainLoop_eq (env : TrainEnv Θ Input) :
    ∀ (dl : List (Batch Input)) (θ : Θ) (l a : ℚ),
      trainLoop env θ l a dl =
        (finalParam env θ dl,
         l + (((paramTraj env θ dl).zip dl).map (fun p => trainBatchLoss env p.1 p.2)).sum,
         a + (((paramTraj env θ dl).zip dl).map (fun p => trainBatchAcc env p.1 p.2)).sum)
  | [], θ, l, a => by
    simp [trainLoop, finalParam, paramTraj]
  | b :: bs, θ, l, a => by
    simp only [trainLoop, paramTraj, finalParam, List.zip_cons_cons, List.map_cons,
      List.sum_cons, trainLoop_eq env bs, Prod.mk.injEq]
    refine ⟨trivial, ?_, ?_⟩ <;>
      · simp only [trainBatchLoss, trainBatchAcc]
        ring

theorem testLoop_eq (env : TrainEnv Θ Input) (θ : Θ) :
    ∀ (dl : List (Batch Input)) (l a : ℚ),
      testLoop env θ l a dl =
        (l + (dl.map (fun b => evalBatchLoss env θ b)).sum,
         a + (dl.map (fun b => evalBatchAcc env θ b)).sum)
  | [], l, a => by simp [testLoop]
  | b :: bs, l, a => by
    simp only [testLoop, List.map_cons, List.sum_cons, testLoop_eq env θ bs, Prod.mk.injEq]
    refine ⟨?_, ?_⟩ <;>
      · simp only [evalBatchLoss, evalBatchAcc]
        ring

theorem train_step_eq_spec (env : TrainEnv Θ Input) (θ : Θ) (dl : List (Batch Input))
    (e : Nat) : train_step env θ dl e = train_step_spec env θ dl e := by
  rcases dl with _ | ⟨b, bs⟩
  · rfl
  · simp only [train_step, train_step_spec, trainLoop_eq, List.isEmpty_cons,
      List.length_cons, Nat.succ_ne_zero, if_false, Bool.false_eq_true, zero_add]

theorem test_step_eq_spec (env : TrainEnv Θ Input) (θ : Θ) (dl : List (Batch Input))
    (e : Nat) : test_step env θ dl e = test_step_spec env θ dl e := by
  rcases dl with _ | ⟨b, bs⟩
  · rfl
  · simp only [test_step, test_step_spec, testLoop_eq, List.isEmpty_cons,
      List.length_cons, Nat.succ_ne_zero, if_false, Bool.false_eq_true, zero_add]

end LoopLemmas

/-- C5: for every batch source, `train_step` performs exactly one pass over
all batches in source-provided order — each batch seeing the parameters
left by the previous batch's `zero_grad`/`backward`/`step` update — per
batch computing the forward pass, the scalar loss, the predicted class as
the arg-max over a softmax of the output scores, and the fraction of the
batch predicted correctly; after all batches it returns the mean loss
across batches and the mean per-batch accuracy across batches (and the
final parameters). -/
theorem c5_train_step_one_pass_means {Θ Input : Type} (env : TrainEnv Θ Input) (θ : Θ)
    (dl : List (Batch Input)) (e : Nat) :
    train_step env θ dl e = train_step_spec env θ dl e :=
  train_step_eq_spec env θ dl e

/-- C6: for every model and batch source, `test_step` runs the model in
evaluation mode under disabled gradient tracking, never mutates the
parameters (the parameter component of its result is the input parameters,
unchanged, and it takes no optimizer at all), computes the predicted class
as the arg-max of the raw scores (no softmax), and returns the mean loss
and mean per-batch accuracy over the batches. -/
theorem c6_test_step_eval_frame {Θ Input : Type} (env : TrainEnv Θ Input) (θ : Θ)
    (dl : List (Batch Input)) (e : Nat) :
    test_step env θ dl e = test_step_spec env θ dl e :=
  test_step_eq_spec env θ dl e

/-- C8: running `test_step` twice in succession on the same fixed-order
batch source — the second run starting from the model state the first run
left behind — yields identical `(loss, accuracy)` results both times. -/
theorem c8_test_step_idempotent {Θ Input : Type} (env : TrainEnv Θ Input) (θ θ1 : Θ)
    (dl : List (Batch Input)) (e : Nat) (l a : ℚ)
    (h : test_step env θ dl e = some (θ1, l, a)) :
    test_step env θ1 dl e = some (θ1, l, a) := by
  rw [test_step_eq_spec] at h ⊢
  rcases dl with _ | ⟨b, bs⟩
  · exact absurd h (by simp [test_step_spec])
  · simp only [test_step_spec, List.isEmpty_cons, Bool.false_eq_true, if_false,
      Option.some.injEq, Prod.mk.injEq] at h ⊢
    obtain ⟨h1, h2, h3⟩ := h
    subst h1
    exact ⟨trivial, h2, h3⟩

/-- C8 witness: a concrete evaluation pass whose repetition returns the
same result. -/
theorem c8_witness : test_step env1 () dl1 1 = some ((), (0 : ℚ), 1) :=
  c8_test_step_idempotent env1 () () dl1 1 0 1
    (by simp [test_step, testLoop, dl1, batch1, env1, correctCount, argmaxList, argmaxAux])

/-- C9: the two steps are not total — their final averaging divides by the
number of batches with no guard, so on an empty dataloader the division's
error branch is reached (`none`); with at least one batch the result is
defined. -/
theorem c9_empty_dataloader_unguarded {Θ Input : Type} (env : TrainEnv Θ Input) (θ : Θ)
    (dl : List (Batch Input)) (e : Nat) (hne : dl ≠ []) :
    train_step env θ [] e = none ∧ test_step env θ [] e = none ∧
    (train_step env θ dl e).isSome ∧ (test_step env θ dl e).isSome := by
  refine ⟨rfl, rfl, ?_, ?_⟩ <;>
    simp [train_step, test_step, List.length_eq_zero, hne]

/-- C9 witness: the empty and the one-batch dataloader, concretely. -/
theorem c9_witness :
    train_step env1 () [] 1 = none ∧ test_step env1 () [] 1 = none ∧
    (train_step env1 () dl1 1).isSome ∧ (test_step env1 () dl1 1).isSome :=
  c9_empty_dataloader_unguarded env1 () dl1 1 (by simp [dl1])

/-! Characterisation of the epoch driver. -/

section DriverLemmas

variable {Θ Input : Type}

theorem runEpoch_eq_some (env : TrainEnv Θ Input) (cfg : Setting)
    (tdl vdl : List (Batch Input)) (e : Nat) (s : TrainState Θ)
    {θ1 θ2 : Θ} {trl tra tel tea : ℚ}
    (hts : train_step env s.model tdl e = some (θ1, trl, tra))
    (hev : test_step env θ1 vdl e = some (θ2, tel, tea)) :
    runEpoch env cfg tdl vdl e s = some (epochUpdate cfg s θ2 trl tra tel tea) := by
  unfold runEpoch
  simp only [hts, hev]

theorem runEpoch_inv (env : TrainEnv Θ Input) (cfg : Setting)
    (tdl vdl : List (Batch Input)) (e : Nat) (s s1 : TrainState Θ)
    (h : runEpoch env cfg tdl vdl e s = some s1) :
    ∃ θ1 trl tra θ2 tel tea,
      train_step env s.model tdl e = some (θ1, trl, tra) ∧
      test_step env θ1 vdl e = some (θ2, tel, tea) ∧
      s1 = epochUpdate cfg s θ2 trl tra tel tea := by
  unfold runEpoch at h
  split at h
  · cases h
  · rename_i θ1 trl tra heq
    split at h
    · cases h
    · rename_i θ2 tel tea heq2
      exact ⟨θ1, trl, tra, θ2, tel, tea, heq, heq2, (Option.some.inj h).symm⟩

theorem epochUpdate_results (cfg : Setting) (s : TrainState Θ) (θ2 : Θ)
    (trl tra tel tea : ℚ) :
    (epochUpdate cfg s θ2 trl tra tel tea).results = appendEpoch s.results trl tra tel tea := by
  unfold epochUpdate
  split <;> rfl

theorem epochUpdate_model (cfg : Setting) (s : TrainState Θ) (θ2 : Θ)
    (trl tra tel tea : ℚ) : (epochUpdate cfg s θ2 trl tra tel tea).model = θ2 := by
  unfold epochUpdate
  split <;> rfl

theorem epochUpdate_saved_pos (cfg : Setting) (s : TrainState Θ) (θ2 : Θ)
    (trl tra tel tea : ℚ) (h : s.best_acc < tea) :
    (epochUpdate cfg s θ2 trl tra tel tea).saved =
      s.saved ++ [(checkpointFileName cfg.PTH_SAVE_DIR tea, θ2)] ∧
    (epochUpdate cfg s θ2 trl tra tel tea).best_acc = tea := by
  unfold epochUpdate
  rw [if_pos h]
  exact ⟨rfl, rfl⟩

theorem epochUpdate_saved_neg (cfg : Setting) (s : TrainState Θ) (θ2 : Θ)
    (trl tra tel tea : ℚ) (h : ¬ s.best_acc < tea) :
    (epochUpdate cfg s θ2 trl tra tel tea).saved = s.saved ∧
    (epochUpdate cfg s θ2 trl tra tel tea).best_acc = s.best_acc := by
  unfold epochUpdate
  rw [if_neg h]
  exact ⟨rfl, rfl⟩

theorem epochUpdate_best_mono (cfg : Setting) (s : TrainState Θ) (θ2 : Θ)
    (trl tra tel tea : ℚ) :
    s.best_acc ≤ (epochUpdate cfg s θ2 trl tra tel tea).best_acc := by
  unfold epochUpdate
  split
  · exact le_of_lt (by assumption)
  · exact le_refl _

theorem trainAux_invariant (env : TrainEnv Θ Input) (cfg : Setting)
    (tdl vdl : List (Batch Input)) (P : TrainState Θ → Prop)
    (hP : ∀ e s s1, runEpoch env cfg tdl vdl e s = some s1 → P s → P s1) :
    ∀ (n e : Nat) (s s1 : TrainState Θ),
      trainAux env cfg tdl vdl n e s = some s1 → P s → P s1 := by
  intro n
  induction n with
  | zero =>
    intro e s s1 h hs
    simp only [trainAux, Option.some.injEq] at h
    exact h ▸ hs
  | succ n ih =>
    intro e s s1 h hs
    simp only [trainAux] at h
    rcases hre : runEpoch env cfg tdl vdl e s with _ | s2 <;> rw [hre] at h
    · cases h
    · exact ih (e + 1) s2 s1 h (hP e s s2 hre hs)

theorem trainAux_best_mono (env : TrainEnv Θ Input) (cfg : Setting)
    (tdl vdl : List (Batch Input)) :
    ∀ (n e : Nat) (s s1 : TrainState Θ),
      trainAux env cfg tdl vdl n e s = some s1 → s.best_acc ≤ s1.best_acc := by
  intro n
  induction n with
  | zero =>
    intro e s s1 h
    simp only [trainAux, Option.some.injEq] at h
    exact h ▸ le_refl _
  | succ n ih =>
    intro e s s1 h
    simp only [trainAux] at h
    rcases hre : runEpoch env cfg tdl vdl e s with _ | s2 <;> rw [hre] at h
    · cases h
    · obtain ⟨θ1, trl, tra, θ2, tel, tea, -, -, hs2⟩ :=
        runEpoch_inv env cfg tdl vdl e s s2 hre
      exact le_trans (hs2 ▸ epochUpdate_best_mono cfg s θ2 trl tra tel tea)
        (ih (e + 1) s2 s1 h)

theorem trainAux_results_lengths (env : TrainEnv Θ Input) (cfg : Setting)
    (tdl vdl : List (Batch Input)) :
    ∀ (n e : Nat) (s s1 : TrainState Θ),
      trainAux env cfg tdl vdl n e s = some s1 →
      s1.results.train_loss.length = s.results.train_loss.length + n ∧
      s1.results.train_acc.length = s.results.train_acc.length + n ∧
      s1.results.test_loss.length = s.results.test_loss.length + n ∧
      s1.results.test_acc.length = s.results.test_acc.length + n := by
  intro n
  induction n with
  | zero =>
    intro e s s1 h
    simp only [trainAux, Option.some.injEq] at h
    simp [← h]
  | succ n ih =>
    intro e s s1 h
    simp only [trainAux] at h
    rcases hre : runEpoch env cfg tdl vdl e s with _ | s2 <;> rw [hre] at h
    · cases h
    · obtain ⟨θ1, trl, tra, θ2, tel, tea, -, -, hs2⟩ :=
        runEpoch_inv env cfg tdl vdl e s s2 hre
      obtain ⟨i1, i2, i3, i4⟩ := ih (e + 1) s2 s1 h
      have hr : s2.results = appendEpoch s.results trl tra tel tea :=
        hs2 ▸ epochUpdate_results cfg s θ2 trl tra tel tea
      rw [i1, i2, i3, i4, hr]
      simp only [appendEpoch, List.length_append, List.length_cons, List.length_nil]
      omega

end DriverLemmas

/-! Concrete evaluations shared by the witnesses. -/

theorem ckpt_name_one : checkpointFileName "save" 1 = "save/checkpoint_100.0000%.pth" := by
  unfold checkpointFileName fmtFixed4
  have h : ((1 : ℚ) * 100) * 10000 = ((1000000 : ℕ) : ℚ) := by norm_num
  rw [h, round_natCast]
  decide

theorem train_step_env1_eval : train_step env1 () dl1 1 = some ((), 0, 1) := by
  norm_num [train_step, trainLoop, env1, dl1, batch1, correctCount, argmaxList, argmaxAux,
    softmaxRow]

theorem test_step_env1_eval : test_step env1 () dl1 1 = some ((), 0, 1) := by
  simp [test_step, testLoop, env1, dl1, batch1, correctCount, argmaxList, argmaxAux]

theorem runEpoch_env1_eval : runEpoch env1 cfg1 dl1 dl1 1 s0 = some w1State := by
  rw [runEpoch_eq_some env1 cfg1 dl1 dl1 1 s0 train_step_env1_eval test_step_env1_eval]
  have hlt : s0.best_acc < 1 := by simp [s0, BEST_ACC]
  unfold epochUpdate
  rw [if_pos hlt]
  simp [s0, w1State, appendEpoch, emptyResults, cfg1, ckpt_name_one, BEST_ACC]

theorem run1_eval : train env1 cfg1 dl1 dl1 () BEST_ACC [] = some w1State := by
  unfold train
  show trainAux env1 cfg1 dl1 dl1 1 1 s0 = some w1State
  simp only [trainAux, runEpoch_env1_eval]

theorem train_step_env0_eval : train_step env0 () dl1 1 = some ((), 0, 0) := by
  norm_num [train_step, trainLoop, env0, dl1, batch1, correctCount, argmaxList, argmaxAux,
    softmaxRow]

theorem test_step_env0_eval : test_step env0 () dl1 1 = some ((), 0, 0) := by
  simp [test_step, testLoop, env0, dl1, batch1, correctCount, argmaxList, argmaxAux]

theorem run0_eval : train env0 cfg1 dl1 dl1 () BEST_ACC [] = some ⟨(), 0, ⟨[0], [0], [0], [0]⟩, []⟩ := by
  unfold train
  show trainAux env0 cfg1 dl1 dl1 1 1 s0 = some _
  rw [show trainAux env0 cfg1 dl1 dl1 1 1 s0 =
      match runEpoch env0 cfg1 dl1 dl1 1 s0 with
      | none => none
      | some s1 => trainAux env0 cfg1 dl1 dl1 0 2 s1 from rfl]
  rw [runEpoch_eq_some env0 cfg1 dl1 dl1 1 s0 train_step_env0_eval test_step_env0_eval]
  have hlt : ¬ s0.best_acc < 0 := by simp [s0, BEST_ACC]
  unfold epochUpdate
  rw [if_neg hlt]
  simp [trainAux, s0, appendEpoch, emptyResults, BEST_ACC]

/-! Invariant: the watermark bounds every recorded test accuracy. -/

theorem epochUpdate_testacc_ub {Θ : Type} (cfg : Setting) (s : TrainState Θ) (θ2 : Θ)
    (trl tra tel tea : ℚ) (hs : ∀ a ∈ s.results.test_acc, a ≤ s.best_acc) :
    ∀ a ∈ (epochUpdate cfg s θ2 trl tra tel tea).results.test_acc,
      a ≤ (epochUpdate cfg s θ2 trl tra tel tea).best_acc := by
  intro a ha
  rw [epochUpdate_results] at ha
  simp only [appendEpoch, List.mem_append, List.mem_singleton] at ha
  by_cases hlt : s.best_acc < tea
  · rw [(epochUpdate_saved_pos cfg s θ2 trl tra tel tea hlt).2]
    rcases ha with ha | rfl
    · exact le_of_lt (lt_of_le_of_lt (hs a ha) hlt)
    · exact le_refl _
  · rw [(epochUpdate_saved_neg cfg s θ2 trl tra tel tea hlt).2]
    rcases ha with ha | rfl
    · exact hs a ha
    · exact le_of_not_lt hlt

theorem trainAux_testacc_ub {Θ Input : Type} (env : TrainEnv Θ Input) (cfg : Setting)
    (tdl vdl : List (Batch Input)) (n e : Nat) (s s1 : TrainState Θ)
    (h : trainAux env cfg tdl vdl n e s = some s1)
    (hs : ∀ a ∈ s.results.test_acc, a ≤ s.best_acc) :
    ∀ a ∈ s1.results.test_acc, a ≤ s1.best_acc := by
  refine trainAux_invariant env cfg tdl vdl
    (fun t => ∀ a ∈ t.results.test_acc, a ≤ t.best_acc) ?_ n e s s1 h hs
  intro e' t t1 hre ht
  obtain ⟨θ1, trl, tra, θ2, tel, tea, -, -, ht1⟩ := runEpoch_inv env cfg tdl vdl e' t t1 hre
  exact ht1 ▸ epochUpdate_testacc_ub cfg t θ2 trl tra tel tea ht

/-- C1: in every epoch of the driver loop (reached from a start state with
an empty results history), a checkpoint is written if and only if that
epoch's test accuracy strictly exceeds the current best-accuracy watermark
— so a write also strictly exceeds every previous epoch's recorded test
accuracy, and ties or decreases leave the written files unchanged — and the
file written is named `checkpoint_<test_acc*100 to 4 decimal places>%.pth`
in the configured save directory. -/
theorem c1_checkpoint_write_iff {Θ Input : Type} (env : TrainEnv Θ Input) (cfg : Setting)
    (tdl vdl : List (Batch Input)) (n e : Nat) (θ0 : Θ) (best0 : ℚ)
    (files0 : List (String × Θ)) (s : TrainState Θ) (θ1 θ2 : Θ) (trl tra tel tea : ℚ)
    (hreach : trainAux env cfg tdl vdl n 1 ⟨θ0, best0, emptyResults, files0⟩ = some s)
    (hts : train_step env s.model tdl e = some (θ1, trl, tra))
    (hev : test_step env θ1 vdl e = some (θ2, tel, tea)) :
    runEpoch env cfg tdl vdl e s = some (epochUpdate cfg s θ2 trl tra tel tea) ∧
    (s.best_acc < tea →
      (epochUpdate cfg s θ2 trl tra tel tea).saved =
        s.saved ++ [(checkpointFileName cfg.PTH_SAVE_DIR tea, θ2)]) ∧
    (¬ s.best_acc < tea → (epochUpdate cfg s θ2 trl tra tel tea).saved = s.saved) ∧
    (s.best_acc < tea → ∀ a ∈ s.results.test_acc, a < tea) := by
  have hub : ∀ a ∈ s.results.test_acc, a ≤ s.best_acc :=
    trainAux_testacc_ub env cfg tdl vdl n 1 _ s hreach
      (by intro a ha; simp [emptyResults] at ha)
  exact ⟨runEpoch_eq_some env cfg tdl vdl e s hts hev,
    fun h => (epochUpdate_saved_pos cfg s θ2 trl tra tel tea h).1,
    fun h => (epochUpdate_saved_neg cfg s θ2 trl tra tel tea h).1,
    fun h a ha => lt_of_le_of_lt (hub a ha) h⟩

/-- C1 witness: the first epoch of a fresh run whose test accuracy is 1
writes exactly the checkpoint named `checkpoint_100.0000%.pth`. -/
theorem c1_witness :
    runEpoch env1 cfg1 dl1 dl1 1 s0 = some (epochUpdate cfg1 s0 () 0 1 0 1) ∧
    (s0.best_acc < 1 →
      (epochUpdate cfg1 s0 () 0 1 0 1).saved =
        s0.saved ++ [(checkpointFileName cfg1.PTH_SAVE_DIR 1, ())]) ∧
    (¬ s0.best_acc < 1 → (epochUpdate cfg1 s0 () 0 1 0 1).saved = s0.saved) ∧
    (s0.best_acc < 1 → ∀ a ∈ s0.results.test_acc, a < 1) :=
  c1_checkpoint_write_iff env1 cfg1 dl1 dl1 0 1 () BEST_ACC [] s0 () () 0 1 0 1 rfl
    train_step_env1_eval test_step_env1_eval

/-- C3: the four metric sequences of the results history always have equal
length — every epoch iteration appends exactly one value to each of the
four — and after a completed run each has length `NUM_EPOCHS`. -/
theorem c3_results_equal_lengths {Θ Input : Type} (env : TrainEnv Θ Input) (cfg : Setting)
    (tdl vdl : List (Batch Input)) :
    (∀ (e : Nat) (s s1 : TrainState Θ), runEpoch env cfg tdl vdl e s = some s1 →
      s1.results.train_loss.length = s.results.train_loss.length + 1 ∧
      s1.results.train_acc.length = s.results.train_acc.length + 1 ∧
      s1.results.test_loss.length = s.results.test_loss.length + 1 ∧
      s1.results.test_acc.length = s.results.test_acc.length + 1) ∧
    (∀ (θ0 : Θ) (best0 : ℚ) (files0 : List (String × Θ)) (s : TrainState Θ),
      train env cfg tdl vdl θ0 best0 files0 = some s →
      s.results.train_loss.length = cfg.NUM_EPOCHS ∧
      s.results.train_acc.length = cfg.NUM_EPOCHS ∧
      s.results.test_loss.length = cfg.NUM_EPOCHS ∧
      s.results.test_acc.length = cfg.NUM_EPOCHS) := by
  constructor
  · intro e s s1 h
    obtain ⟨θ1, trl, tra, θ2, tel, tea, -, -, hs1⟩ := runEpoch_inv env cfg tdl vdl e s s1 h
    rw [hs1, epochUpdate_results]
    simp [appendEpoch]
  · intro θ0 best0 files0 s h
    unfold train at h
    have := trainAux_results_lengths env cfg tdl vdl cfg.NUM_EPOCHS 1 _ s h
    simpa [emptyResults] using this

/-- C3 witness: the one-epoch run grows each sequence from 0 to 1. -/
theorem c3_witness :
    (w1State.results.train_loss.length = s0.results.train_loss.length + 1 ∧
     w1State.results.train_acc.length = s0.results.train_acc.length + 1 ∧
     w1State.results.test_loss.length = s0.results.test_loss.length + 1 ∧
     w1State.results.test_acc.length = s0.results.test_acc.length + 1) ∧
    (w1State.results.train_loss.length = cfg1.NUM_EPOCHS ∧
     w1State.results.train_acc.length = cfg1.NUM_EPOCHS ∧
     w1State.results.test_loss.length = cfg1.NUM_EPOCHS ∧
     w1State.results.test_acc.length = cfg1.NUM_EPOCHS) :=
  ⟨(c3_results_equal_lengths env1 cfg1 dl1 dl1).1 1 s0 w1State runEpoch_env1_eval,
   (c3_results_equal_lengths env1 cfg1 dl1 dl1).2 () BEST_ACC [] w1State run1_eval⟩

/-- C4: the best-accuracy watermark is initialized to 0 and is
monotonically non-decreasing; in every epoch it is changed at most once —
either left unchanged, or set, after that epoch's evaluation has produced
test accuracy `tea`, to exactly that strictly larger value — and it never
decreases across any run of the driver. -/
theorem c4_watermark_monotone {Θ Input : Type} (env : TrainEnv Θ Input) (cfg : Setting)
    (tdl vdl : List (Batch Input)) :
    BEST_ACC = 0 ∧
    (∀ (e : Nat) (s s1 : TrainState Θ) (θ1 θ2 : Θ) (trl tra tel tea : ℚ),
      train_step env s.model tdl e = some (θ1, trl, tra) →
      test_step env θ1 vdl e = some (θ2, tel, tea) →
      runEpoch env cfg tdl vdl e s = some s1 →
      s.best_acc ≤ s1.best_acc ∧
      (s1.best_acc = s.best_acc ∨ (s.best_acc < tea ∧ s1.best_acc = tea))) ∧
    (∀ (n e : Nat) (s s1 : TrainState Θ),
      trainAux env cfg tdl vdl n e s = some s1 → s.best_acc ≤ s1.best_acc) := by
  refine ⟨rfl, ?_, trainAux_best_mono env cfg tdl vdl⟩
  intro e s s1 θ1 θ2 trl tra tel tea hts hev hre
  rw [runEpoch_eq_some env cfg tdl vdl e s hts hev] at hre
  have hs1 : s1 = epochUpdate cfg s θ2 trl tra tel tea := (Option.some.inj hre).symm
  subst hs1
  refine ⟨epochUpdate_best_mono cfg s θ2 trl tra tel tea, ?_⟩
  by_cases hlt : s.best_acc < tea
  · exact Or.inr ⟨hlt, (epochUpdate_saved_pos cfg s θ2 trl tra tel tea hlt).2⟩
  · exact Or.inl (epochUpdate_saved_neg cfg s θ2 trl tra tel tea hlt).2

/-- C4 witness: the one-epoch run of `env1` raises the watermark from 0 to
its test accuracy 1, and the full run is non-decreasing. -/
theorem c4_witness :
    (s0.best_acc ≤ w1State.best_acc ∧
     (w1State.best_acc = s0.best_acc ∨ (s0.best_acc < 1 ∧ w1State.best_acc = 1))) ∧
    s0.best_acc ≤ w1State.best_acc :=
  ⟨((c4_watermark_monotone env1 cfg1 dl1 dl1).2.1 1 s0 w1State () () 0 1 0 1
      train_step_env1_eval test_step_env1_eval runEpoch_env1_eval),
   (c4_watermark_monotone env1 cfg1 dl1 dl1).2.2 1 1 s0 w1State
     (by simpa [trainAux] using runEpoch_env1_eval)⟩

/-! Accuracy bounds. -/

theorem correctCount_le (ps ls : List Nat) : correctCount ps ls ≤ ps.length :=
  le_trans (List.length_filter_le _ _)
    (by rw [List.length_zip]; exact min_le_left _ _)

theorem accFrac_bounds (c n : Nat) (hc : c ≤ n) :
    0 ≤ (c : ℚ) / (n : ℚ) ∧ (c : ℚ) / (n : ℚ) ≤ 1 := by
  rcases Nat.eq_zero_or_pos n with hn | hn
  · subst hn
    have hc0 : c = 0 := Nat.le_zero.1 hc
    subst hc0
    norm_num
  · have hn' : (0 : ℚ) < (n : ℚ) := by exact_mod_cast hn
    refine ⟨by positivity, ?_⟩
    rw [div_le_one hn']
    exact_mod_cast hc

section AccBounds

variable {Θ Input : Type}

theorem trainBatchAcc_bounds (env : TrainEnv Θ Input) (θ : Θ) (b : Batch Input) :
    0 ≤ trainBatchAcc env θ b ∧ trainBatchAcc env θ b ≤ 1 := by
  unfold trainBatchAcc
  have h := correctCount_le
    ((env.forward Mode.train θ b.images).map fun s => argmaxList (softmaxRow env.expQ s))
    b.labels
  rw [List.length_map] at h
  exact accFrac_bounds _ _ h

theorem evalBatchAcc_bounds (env : TrainEnv Θ Input) (θ : Θ) (b : Batch Input) :
    0 ≤ evalBatchAcc env θ b ∧ evalBatchAcc env θ b ≤ 1 := by
  unfold evalBatchAcc
  exact accFrac_bounds _ _
    (correctCount_le ((env.forward Mode.eval θ b.images).map argmaxList) b.labels)

end AccBounds

theorem sum_bounds_of_unit {l : List ℚ} (h0 : ∀ x ∈ l, 0 ≤ x) (h1 : ∀ x ∈ l, x ≤ 1) :
    0 ≤ l.sum ∧ l.sum ≤ (l.length : ℚ) := by
  refine ⟨List.sum_nonneg h0, ?_⟩
  have h := List.sum_le_card_nsmul l 1 h1
  simpa using h

section StepAccBounds

variable {Θ Input : Type}

theorem train_step_acc_bounds (env : TrainEnv Θ Input) (θ : Θ) (dl : List (Batch Input))
    (e : Nat) (θ1 : Θ) (l a : ℚ) (h : train_step env θ dl e = some (θ1, l, a)) :
    0 ≤ a ∧ a ≤ 1 := by
  rw [train_step_eq_spec] at h
  unfold train_step_spec at h
  rcases dl with _ | ⟨b, bs⟩
  · simp at h
  · simp only [List.isEmpty_cons, Bool.false_eq_true, if_false, Option.some.injEq,
      Prod.mk.injEq] at h
    obtain ⟨-, -, ha⟩ := h
    have hmem0 : ∀ x ∈ ((paramTraj env θ (b :: bs)).zip (b :: bs)).map
        (fun p => trainBatchAcc env p.1 p.2), 0 ≤ x := by
      intro x hx
      obtain ⟨p, -, rfl⟩ := List.mem_map.1 hx
      exact (trainBatchAcc_bounds env p.1 p.2).1
    have hmem1 : ∀ x ∈ ((paramTraj env θ (b :: bs)).zip (b :: bs)).map
        (fun p => trainBatchAcc env p.1 p.2), x ≤ 1 := by
      intro x hx
      obtain ⟨p, -, rfl⟩ := List.mem_map.1 hx
      exact (trainBatchAcc_bounds env p.1 p.2).2
    obtain ⟨hs0, hs1⟩ := sum_bounds_of_unit hmem0 hmem1
    have hlen : (((paramTraj env θ (b :: bs)).zip (b :: bs)).map
        (fun p => trainBatchAcc env p.1 p.2)).length = (b :: bs).length := by
      rw [List.length_map, List.length_zip, paramTraj_length, min_self]
    have hpos : (0 : ℚ) < ((b :: bs).length : ℚ) := by
      exact_mod_cast Nat.succ_pos bs.length
    rw [← ha]
    refine ⟨div_nonneg hs0 (le_of_lt hpos), ?_⟩
    rw [div_le_one hpos]
    calc _ ≤ ((((paramTraj env θ (b :: bs)).zip (b :: bs)).map
        (fun p => trainBatchAcc env p.1 p.2)).length : ℚ) := hs1
    _ = ((b :: bs).length : ℚ) := by rw [hlen]

theorem test_step_acc_bounds (env : TrainEnv Θ Input) (θ : Θ) (dl : List (Batch Input))
    (e : Nat) (θ1 : Θ) (l a : ℚ) (h : test_step env θ dl e = some (θ1, l, a)) :
    0 ≤ a ∧ a ≤ 1 := by
  rw [test_step_eq_spec] at h
  unfold test_step_spec at h
  rcases dl with _ | ⟨b, bs⟩
  · simp at h
  · simp only [List.isEmpty_cons, Bool.false_eq_true, if_false, Option.some.injEq,
      Prod.mk.injEq] at h
    obtain ⟨-, -, ha⟩ := h
    have hmem0 : ∀ x ∈ (b :: bs).map (fun b => evalBatchAcc env θ b), 0 ≤ x := by
      intro x hx
      obtain ⟨p, -, rfl⟩ := List.mem_map.1 hx
      exact (evalBatchAcc_bounds env θ p).1
    have hmem1 : ∀ x ∈ (b :: bs).map (fun b => evalBatchAcc env θ b), x ≤ 1 := by
      intro x hx
      obtain ⟨p, -, rfl⟩ := List.mem_map.1 hx
      exact (evalBatchAcc_bounds env θ p).2
    obtain ⟨hs0, hs1⟩ := sum_bounds_of_unit hmem0 hmem1
    have hpos : (0 : ℚ) < ((b :: bs).length : ℚ) := by
      exact_mod_cast Nat.succ_pos bs.length
    rw [← ha]
    refine ⟨div_nonneg hs0 (le_of_lt hpos), ?_⟩
    rw [div_le_one hpos]
    calc _ ≤ (((b :: bs).map (fun b => evalBatchAcc env θ b)).length : ℚ) := hs1
    _ = ((b :: bs).length : ℚ) := by rw [List.length_map]

section RunAccBounds

variable {Θ Input : Type}

theorem trainAux_acc_bounds (env : TrainEnv Θ Input) (cfg : Setting)
    (tdl vdl : List (Batch Input)) (n e : Nat) (s s1 : TrainState Θ)
    (h : trainAux env cfg tdl vdl n e s = some s1)
    (hs : (∀ a ∈ s.results.train_acc, 0 ≤ a ∧ a ≤ 1) ∧
          (∀ a ∈ s.results.test_acc, 0 ≤ a ∧ a ≤ 1)) :
    (∀ a ∈ s1.results.train_acc, 0 ≤ a ∧ a ≤ 1) ∧
    (∀ a ∈ s1.results.test_acc, 0 ≤ a ∧ a ≤ 1) := by
  refine trainAux_invariant env cfg tdl vdl
    (fun t => (∀ a ∈ t.results.train_acc, 0 ≤ a ∧ a ≤ 1) ∧
              (∀ a ∈ t.results.test_acc, 0 ≤ a ∧ a ≤ 1)) ?_ n e s s1 h hs
  intro e' t t1 hre ⟨htr, hte⟩
  obtain ⟨θ1, trl, tra, θ2, tel, tea, hts, hev, ht1⟩ := runEpoch_inv env cfg tdl vdl e' t t1 hre
  have hres : t1.results = appendEpoch t.results trl tra tel tea :=
    ht1 ▸ epochUpdate_results cfg t θ2 trl tra tel tea
  have htra := train_step_acc_bounds env t.model tdl e' θ1 trl tra hts
  have htea := test_step_acc_bounds env θ1 vdl e' θ2 tel tea hev
  rw [hres]
  constructor
  · intro a ha
    simp only [appendEpoch, List.mem_append, List.mem_singleton] at ha
    rcases ha with ha | rfl
    · exact htr a ha
    · exact htra
  · intro a ha
    simp only [appendEpoch, List.mem_append, List.mem_singleton] at ha
    rcases ha with ha | rfl
    · exact hte a ha
    · exact htea

end RunAccBounds

/-- C7: every accuracy value in the results history of a completed run —
both `train_acc` and `test_acc`, for every epoch — lies in `[0, 1]`. -/
theorem c7_accuracies_in_unit_interval {Θ Input : Type} (env : TrainEnv Θ Input)
    (cfg : Setting) (tdl vdl : List (Batch Input)) (θ0 : Θ) (best0 : ℚ)
    (files0 : List (String × Θ)) (s : TrainState Θ)
    (h : train env cfg tdl vdl θ0 best0 files0 = some s) :
    (∀ a ∈ s.results.train_acc, 0 ≤ a ∧ a ≤ 1) ∧
    (∀ a ∈ s.results.test_acc, 0 ≤ a ∧ a ≤ 1) := by
  unfold train at h
  refine trainAux_acc_bounds env cfg tdl vdl cfg.NUM_EPOCHS 1 _ s h ⟨?_, ?_⟩ <;>
    · intro a ha
      simp [emptyResults] at ha

/-- C7 witness: the accuracies of the concrete one-epoch run. -/
theorem c7_witness :
    (∀ a ∈ w1State.results.train_acc, 0 ≤ a ∧ a ≤ 1) ∧
    (∀ a ∈ w1State.results.test_acc, 0 ≤ a ∧ a ≤ 1) :=
  c7_accuracies_in_unit_interval env1 cfg1 dl1 dl1 () BEST_ACC [] w1State run1_eval

section BestTracking

variable {Θ Input : Type}

theorem trainAux_best_tracking (env : TrainEnv Θ Input) (cfg : Setting)
    (tdl vdl : List (Batch Input)) (n e : Nat) (s s1 : TrainState Θ)
    (h : trainAux env cfg tdl vdl n e s = some s1)
    (hs : (s.best_acc = 0 ∨ s.best_acc ∈ s.results.test_acc) ∧
      (0 < s.best_acc → ∃ p ∈ s.saved, p.1 = checkpointFileName cfg.PTH_SAVE_DIR s.best_acc)) :
    (s1.best_acc = 0 ∨ s1.best_acc ∈ s1.results.test_acc) ∧
    (0 < s1.best_acc → ∃ p ∈ s1.saved, p.1 = checkpointFileName cfg.PTH_SAVE_DIR s1.best_acc) := by
  refine trainAux_invariant env cfg tdl vdl
    (fun t => (t.best_acc = 0 ∨ t.best_acc ∈ t.results.test_acc) ∧
      (0 < t.best_acc → ∃ p ∈ t.saved, p.1 = checkpointFileName cfg.PTH_SAVE_DIR t.best_acc))
    ?_ n e s s1 h hs
  rintro e' t t1 hre ⟨hb, hsv⟩
  obtain ⟨θ1, trl, tra, θ2, tel, tea, hts, hev, ht1⟩ := runEpoch_inv env cfg tdl vdl e' t t1 hre
  subst ht1
  by_cases hlt : t.best_acc < tea
  · obtain ⟨hsaved, hbest⟩ := epochUpdate_saved_pos cfg t θ2 trl tra tel tea hlt
    rw [hbest, hsaved, epochUpdate_results]
    refine ⟨Or.inr (by simp [appendEpoch]), fun _ => ?_⟩
    exact ⟨(checkpointFileName cfg.PTH_SAVE_DIR tea, θ2), by simp, rfl⟩
  · obtain ⟨hsaved, hbest⟩ := epochUpdate_saved_neg cfg t θ2 trl tra tel tea hlt
    rw [hbest, hsaved, epochUpdate_results]
    refine ⟨?_, hsv⟩
    rcases hb with hb | hb
    · exact Or.inl hb
    · exact Or.inr (by simp only [appendEpoch, List.mem_append]; exact Or.inl hb)

end BestTracking

/-- C2 counterexample: a completed one-epoch run whose single test accuracy
is 0 — the model `env0` misclassifies the only sample.  The run completes,
`results.test_acc = [0]` and the watermark stays at its maximum 0, but the
list of written checkpoint files is empty: no checkpoint file encoding the
maximum (or anything else) was written. -/
theorem c2_counterexample :
    train env0 cfg1 dl1 dl1 () BEST_ACC [] = some ⟨(), 0, ⟨[0], [0], [0], [0]⟩, []⟩ :=
  run0_eval

/-- C2 (amended): for a completed run with at least one epoch started from
the fresh-process watermark `BEST_ACC = 0`, the final watermark equals the
maximum of the recorded test accuracies (it is one of them and bounds them
all); and if that maximum is strictly positive, a checkpoint file was
written whose name encodes it.  (When every epoch's test accuracy is 0 no
checkpoint is written, which is the only correction to the claim.) -/
theorem c2_final_watermark_is_max {Θ Input : Type} (env : TrainEnv Θ Input) (cfg : Setting)
    (tdl vdl : List (Batch Input)) (θ0 : Θ) (files0 : List (String × Θ))
    (s : TrainState Θ) (h : train env cfg tdl vdl θ0 BEST_ACC files0 = some s)
    (hne : cfg.NUM_EPOCHS ≠ 0) :
    s.best_acc ∈ s.results.test_acc ∧
    (∀ a ∈ s.results.test_acc, a ≤ s.best_acc) ∧
    (0 < s.best_acc → ∃ p ∈ s.saved, p.1 = checkpointFileName cfg.PTH_SAVE_DIR s.best_acc) := by
  unfold train at h
  have hub : ∀ a ∈ s.results.test_acc, a ≤ s.best_acc :=
    trainAux_testacc_ub env cfg tdl vdl _ 1 _ s h (by intro a ha; simp [emptyResults] at ha)
  have hnn : ∀ a ∈ s.results.test_acc, 0 ≤ a := by
    intro a ha
    exact ((trainAux_acc_bounds env cfg tdl vdl cfg.NUM_EPOCHS 1 _ s h
      (by constructor <;> · intro a ha; simp [emptyResults] at ha)).2 a ha).1
  have htrack := trainAux_best_tracking env cfg tdl vdl cfg.NUM_EPOCHS 1 _ s h
    ⟨Or.inl rfl, by intro h0; exact absurd h0 (by norm_num [BEST_ACC])⟩
  have hlen : s.results.test_acc.length = cfg.NUM_EPOCHS := by
    have := (trainAux_results_lengths env cfg tdl vdl cfg.NUM_EPOCHS 1 _ s h).2.2.2
    simpa [emptyResults] using this
  have hnil : s.results.test_acc ≠ [] := by
    intro hni
    rw [hni] at hlen
    exact hne hlen.symm
  refine ⟨?_, hub, htrack.2⟩
  rcases htrack.1 with hb | hb
  · obtain ⟨x, hx⟩ := List.exists_mem_of_ne_nil _ hnil
    have hx0 : x = s.best_acc := le_antisymm (hub x hx) (hb ▸ hnn x hx)
    exact hx0 ▸ hx
  · exact hb

/-- C2 witness: the one-epoch run of `env1` ends with watermark 1, the
maximum (and only) test accuracy, and the matching checkpoint file. -/
theorem c2_witness :
    w1State.best_acc ∈ w1State.results.test_acc ∧
    (∀ a ∈ w1State.results.test_acc, a ≤ w1State.best_acc) ∧
    (0 < w1State.best_acc →
      ∃ p ∈ w1State.saved, p.1 = checkpointFileName cfg1.PTH_SAVE_DIR w1State.best_acc) :=
  c2_final_watermark_is_max env1 cfg1 dl1 dl1 () [] w1State run1_eval (by decide)

theorem runEpoch_env1_evalC : runEpoch env1 cfgC dl1 dl1 1 s0 = some w1State := by
  rw [runEpoch_eq_some env1 cfgC dl1 dl1 1 s0 train_step_env1_eval test_step_env1_eval]
  have hlt : s0.best_acc < 1 := by simp [s0, BEST_ACC]
  unfold epochUpdate
  rw [if_pos hlt]
  simp [s0, w1State, appendEpoch, emptyResults, cfgC, ckpt_name_one, BEST_ACC]

/-- C10: the best-accuracy watermark is process-global state the driver
never resets and the continue-training path never restores.  (1) The state
the `__main__` block starts from has watermark `BEST_ACC = 0` even when
`CONTINUE_TRAIN` loads parameters from a checkpoint.  (2) In any epoch,
starting from any state — in particular the final state of a previous
driver call in the same process — a checkpoint write happens exactly when
the epoch's test accuracy exceeds that state's watermark.  (3) Under
`CONTINUE_TRAIN`, the first epoch whose test accuracy exceeds 0 writes a
new checkpoint even when that accuracy is below the accuracy `accLoaded`
encoded in the loaded checkpoint's name. -/
theorem c10_watermark_not_restored {Θ Input : Type} (env : TrainEnv Θ Input) (cfg : Setting)
    (tdl vdl : List (Batch Input)) :
    (∀ θf θl : Θ, (mainInit cfg θf θl).best_acc = 0 ∧
      (cfg.CONTINUE_TRAIN = true → (mainInit cfg θf θl).model = θl)) ∧
    (∀ (e : Nat) (s s1 : TrainState Θ) (θ1 θ2 : Θ) (trl tra tel tea : ℚ),
      train_step env s.model tdl e = some (θ1, trl, tra) →
      test_step env θ1 vdl e = some (θ2, tel, tea) →
      runEpoch env cfg tdl vdl e s = some s1 →
      (s1.saved ≠ s.saved ↔ s.best_acc < tea) ∧
      (s.best_acc < tea →
        s1.saved = s.saved ++ [(checkpointFileName cfg.PTH_SAVE_DIR tea, θ2)])) ∧
    (∀ (θf θl : Θ) (accLoaded : ℚ) (e : Nat) (s1 : TrainState Θ) (θ1 θ2 : Θ)
        (trl tra tel tea : ℚ),
      train_step env (mainInit cfg θf θl).model tdl e = some (θ1, trl, tra) →
      test_step env θ1 vdl e = some (θ2, tel, tea) →
      runEpoch env cfg tdl vdl e (mainInit cfg θf θl) = some s1 →
      0 < tea → tea < accLoaded →
      s1.saved = [(checkpointFileName cfg.PTH_SAVE_DIR tea, θ2)]) := by
  have hgate : ∀ (e : Nat) (s s1 : TrainState Θ) (θ1 θ2 : Θ) (trl tra tel tea : ℚ),
      train_step env s.model tdl e = some (θ1, trl, tra) →
      test_step env θ1 vdl e = some (θ2, tel, tea) →
      runEpoch env cfg tdl vdl e s = some s1 →
      (s1.saved ≠ s.saved ↔ s.best_acc < tea) ∧
      (s.best_acc < tea →
        s1.saved = s.saved ++ [(checkpointFileName cfg.PTH_SAVE_DIR tea, θ2)]) := by
    intro e s s1 θ1 θ2 trl tra tel tea hts hev hre
    rw [runEpoch_eq_some env cfg tdl vdl e s hts hev] at hre
    have hs1 : s1 = epochUpdate cfg s θ2 trl tra tel tea := (Option.some.inj hre).symm
    subst hs1
    by_cases hlt : s.best_acc < tea
    · obtain ⟨hsaved, -⟩ := epochUpdate_saved_pos cfg s θ2 trl tra tel tea hlt
      refine ⟨⟨fun _ => hlt, fun _ => ?_⟩, fun _ => hsaved⟩
      rw [hsaved]
      intro heq
      have hlenx := congrArg List.length heq
      simp at hlenx
    · obtain ⟨hsaved, -⟩ := epochUpdate_saved_neg cfg s θ2 trl tra tel tea hlt
      exact ⟨⟨fun hne => absurd hsaved hne, fun hcon => absurd hcon hlt⟩,
        fun hcon => absurd hcon hlt⟩
  refine ⟨?_, hgate, ?_⟩
  · intro θf θl
    refine ⟨rfl, fun hct => ?_⟩
    simp [mainInit, hct]
  · intro θf θl accLoaded e s1 θ1 θ2 trl tra tel tea hts hev hre htea _hacc
    have hb0 : (mainInit cfg θf θl).best_acc = BEST_ACC := rfl
    have hlt : (mainInit cfg θf θl).best_acc < tea := by
      rw [hb0]
      simpa [BEST_ACC] using htea
    have := (hgate e (mainInit cfg θf θl) s1 θ1 θ2 trl tra tel tea hts hev hre).2 hlt
    rw [this]
    rfl

/-- C10 witness: a continue-training run (`cfgC`) whose first epoch has
test accuracy 1, below a loaded accuracy of 2, still writes a checkpoint. -/
theorem c10_witness :
    ((mainInit cfgC () ()).best_acc = 0 ∧
      (cfgC.CONTINUE_TRAIN = true → (mainInit cfgC () ()).model = ())) ∧
    ((w1State.saved ≠ s0.saved ↔ s0.best_acc < 1) ∧
      (s0.best_acc < 1 →
        w1State.saved = s0.saved ++ [(checkpointFileName cfgC.PTH_SAVE_DIR 1, ())])) ∧
    w1State.saved = [(checkpointFileName cfgC.PTH_SAVE_DIR 1, ())] :=
  ⟨(c10_watermark_not_restored env1 cfgC dl1 dl1).1 () (),
   (c10_watermark_not_restored env1 cfgC dl1 dl1).2.1 1 s0 w1State () () 0 1 0 1
     train_step_env1_eval test_step_env1_eval runEpoch_env1_evalC,
   (c10_watermark_not_restored env1 cfgC dl1 dl1).2.2 () () 2 1 w1State () () 0 1 0 1
     train_step_env1_eval test_step_env1_eval runEpoch_env1_evalC (by norm_num) (by norm_num)⟩
